import Mathlib

/-!
Verification development for the Neighborhood-Watch relay and web client.

The relay (apps/relay/src/index.ts) is embedded as pure functions over
explicit state: the JavaScript Map (insertion-ordered) becomes an
association list, the Set becomes a duplicate-free list, and each
socket handler becomes a function from its inputs to the list of
emitted events plus the updated state.  The client reconciler
(apps/web/src/App.tsx) is embedded the same way: the refs holding the
pending set, pending map, attempt counters and message list become a
ClientState record, and flushPending becomes a fold over the grouped
pending envelopes.
-/

/-- Insertion-ordered map update, as JavaScript Map.set: if the key is
present its value is replaced in place, otherwise the pair is appended. -/
def mapSet {α : Type} (m : List (String × α)) (k : String) (v : α) :
    List (String × α) :=
  if m.any (fun p => p.1 = k) then
    m.map (fun p => if p.1 = k then (k, v) else p)
  else
    m ++ [(k, v)]

/-- Map lookup, as JavaScript Map.get. -/
def mapGet {α : Type} (m : List (String × α)) (k : String) : Option α :=
  (m.find? (fun p => p.1 = k)).map (fun p => p.2)

/-- Map removal, as JavaScript Map.delete (keys are unique in a Map). -/
def mapDelete {α : Type} (m : List (String × α)) (k : String) :
    List (String × α) :=
  m.filter (fun p => p.1 ≠ k)

/-- Whitespace trim at both ends, as JavaScript String.prototype.trim. -/
def jsTrim (s : String) : String :=
  ⟨((s.data.dropWhile Char.isWhitespace).reverse.dropWhile
      Char.isWhitespace).reverse⟩

/-- Lowercasing, as JavaScript String.prototype.toLowerCase on ASCII data. -/
def jsToLower (s : String) : String :=
  ⟨s.data.map Char.toLower⟩

/-- Helper for splitting a string at commas. -/
def splitCommaAux : List Char → List Char → List String
  | [], acc => [⟨acc.reverse⟩]
  | c :: rest, acc =>
    if c = ',' then ⟨acc.reverse⟩ :: splitCommaAux rest []
    else splitCommaAux rest (c :: acc)

/-- Comma split, as the JavaScript call raw.split with a comma separator;
the empty string yields a single empty field, as in JavaScript. -/
def jsSplitComma (s : String) : List String :=
  splitCommaAux s.data []

/-- parseList from the relay: split the optional environment string at
commas, trim each field, and drop empty fields. -/
def parseList (raw : Option String) : List String :=
  ((jsSplitComma (raw.getD "")).map jsTrim).filter (fun s => s ≠ "")

/-- Environment configuration consumed by the relay at startup:
the ALLOWED_ROOMS and INVITE_TOKENS variables (None when unset). -/
structure RelayConfig where
  allowedRoomsEnv : Option String
  inviteTokensEnv : Option String
deriving DecidableEq

/-- DEFAULT_ROOMS from the relay. -/
def DEFAULT_ROOMS : List String :=
  ["emergency", "family", "vacant-1", "vacant-2", "vacant-3", "vacant-4"]

/-- ALLOWED_ROOMS: the parsed environment list, lowercased. -/
def ALLOWED_ROOMS (cfg : RelayConfig) : List String :=
  (parseList cfg.allowedRoomsEnv).map jsToLower

/-- ROOM_LIST: the configured list when non-empty, else the defaults,
mapped to lowercase.  The source applies no sorting. -/
def ROOM_LIST (cfg : RelayConfig) : List String :=
  (if ALLOWED_ROOMS cfg ≠ [] then ALLOWED_ROOMS cfg else DEFAULT_ROOMS).map
    jsToLower

/-- ROOM_SET membership test used by the join and chat handlers. -/
def roomAllowed (cfg : RelayConfig) (r : String) : Bool :=
  (ROOM_LIST cfg).contains r

/-- INVITE_TOKENS: parsed credential set (list membership stands for the
JavaScript Set membership; parseList never yields duplicates that would
change membership). -/
def INVITE_TOKENS (cfg : RelayConfig) : List String :=
  parseList cfg.inviteTokensEnv

/-- INVITE_ONLY: enabled exactly when the parsed credential set is
non-empty. -/
def INVITE_ONLY (cfg : RelayConfig) : Bool :=
  INVITE_TOKENS cfg ≠ []

/-- LIMITS.roomMax from the relay. -/
def LIMITS_roomMax : Nat := 64

/-- LIMITS.fromMax from the relay. -/
def LIMITS_fromMax : Nat := 64

/-- LIMITS.bodyMax from the relay. -/
def LIMITS_bodyMax : Nat := 2048

/-- One field of an untrusted inbound JSON-ish object: absent, a string,
an integral number, or a value of any other shape. -/
inductive RawField
  | missing
  | str (s : String)
  | int (n : Int)
  | other
deriving DecidableEq

/-- An untrusted inbound chat payload that is an object; a payload that
is not an object at all is modelled as Option.none at the use sites.
The field named from in the source is called fromF here. -/
structure RawMsg where
  id : RawField
  room : RawField
  fromF : RawField
  sentAt : RawField
  body : RawField
deriving DecidableEq

/-- extractId from the relay: the id field when the payload is an object
with a string id, otherwise the empty string. -/
def extractId (raw : Option RawMsg) : String :=
  match raw with
  | none => ""
  | some m =>
    match m.id with
    | RawField.str s => s
    | _ => ""

/-- normalizeRoom on a string value: trim then lowercase. -/
def normalizeRoomStr (s : String) : String :=
  jsToLower (jsTrim s)

/-- normalizeRoom from the relay: non-strings normalize to the empty
string; strings are trimmed and lowercased. -/
def normalizeRoom (raw : RawField) : String :=
  match raw with
  | RawField.str s => normalizeRoomStr s
  | _ => ""

/-- JavaScript String conversion of the raw join argument after the
nullish fallback to the empty string, used for the room echoed in an
invalid_room acknowledgment. -/
def jsStringOf (raw : RawField) : String :=
  match raw with
  | RawField.str s => s
  | RawField.int n => toString n
  | RawField.missing => ""
  | RawField.other => "[object Object]"

/-- A validated chat envelope (the parsed.data of the zod schema). -/
structure ChatEnvelope where
  id : String
  room : String
  fromF : String
  sentAt : Int
  body : String
deriving DecidableEq

/-- ChatEnvelopeSchema.safeParse: id a non-empty string; room a string
of length 1 to 64; from a string of length 1 to 64; sentAt a
non-negative integer; body a string of length 1 to 2048. -/
def safeParse (raw : Option RawMsg) : Option ChatEnvelope :=
  match raw with
  | none => none
  | some m =>
    match m.id, m.room, m.fromF, m.sentAt, m.body with
    | RawField.str i, RawField.str r, RawField.str f, RawField.int t,
      RawField.str b =>
      if 1 ≤ i.length ∧ 1 ≤ r.length ∧ r.length ≤ LIMITS_roomMax ∧
          1 ≤ f.length ∧ f.length ≤ LIMITS_fromMax ∧ 0 ≤ t ∧
          1 ≤ b.length ∧ b.length ≤ LIMITS_bodyMax then
        some ⟨i, r, f, t, b⟩
      else none
    | _, _, _, _, _ => none

/-- SEEN_MAX from the relay. -/
def SEEN_MAX : Nat := 5000

/-- The eviction loop of seenAdd: while the map holds more than cap
entries, read the oldest (front) key; a falsy key (the empty string in
JavaScript, or the absence of a key) breaks the loop, otherwise the
oldest entry is deleted. -/
def evict (cap : Nat) : List (String × Nat) → List (String × Nat)
  | [] => []
  | p :: rest =>
    if rest.length + 1 > cap then
      if p.1 = "" then p :: rest else evict cap rest
    else p :: rest

/-- seenHas from the relay: membership of the id among the cache keys. -/
def seenHas (cache : List (String × Nat)) (id : String) : Bool :=
  (cache.map Prod.fst).contains id

/-- seenAdd from the relay: record the id at the current time, then run
the eviction loop against SEEN_MAX. -/
def seenAdd (cache : List (String × Nat)) (id : String) (now : Nat) :
    List (String × Nat) :=
  evict SEEN_MAX (mapSet cache id now)

/-- Folding seenAdd over a list of ids, each stamped by a time oracle. -/
def seenInsertAll (cache : List (String × Nat)) (ids : List String)
    (times : String → Nat) : List (String × Nat) :=
  ids.foldl (fun c id => seenAdd c id (times id)) cache

/-- The acknowledgment emitted on the chat_ack channel. -/
structure ChatAck where
  id : String
  ok : Bool
  reason : Option String
deriving DecidableEq

/-- One observable relay emission from the chat handler: an
acknowledgment to the sender, or a broadcast of an envelope to a room. -/
inductive RelayEvent
  | chatAck (a : ChatAck)
  | broadcast (room : String) (msg : ChatEnvelope)
deriving DecidableEq

/-- Recognizer for acknowledgment events. -/
def isChatAck : RelayEvent → Bool
  | RelayEvent.chatAck _ => true
  | _ => false

/-- The chat handler of the relay.  Inputs: the configuration, the set
of rooms this socket has joined, the dedup cache, the raw payload, the
clock value, and the message text zod would report for the first failed
issue.  Output: the emitted events in order, and the updated cache. -/
def chatHandler (cfg : RelayConfig) (socketRooms : List String)
    (cache : List (String × Nat)) (raw : Option RawMsg) (now : Nat)
    (zodIssueMsg : String) : List RelayEvent × List (String × Nat) :=
  match safeParse raw with
  | none =>
    ([RelayEvent.chatAck ⟨extractId raw, false, some zodIssueMsg⟩], cache)
  | some msg =>
    let room := normalizeRoomStr msg.room
    if room = "" ∨ roomAllowed cfg room = false then
      ([RelayEvent.chatAck ⟨msg.id, false, some "room_not_allowed"⟩], cache)
    else if socketRooms.contains room = false then
      ([RelayEvent.chatAck ⟨msg.id, false, some "not_in_room"⟩], cache)
    else if seenHas cache msg.id then
      ([RelayEvent.chatAck ⟨msg.id, true, none⟩], cache)
    else
      ([RelayEvent.broadcast room { msg with room := room },
        RelayEvent.chatAck ⟨msg.id, true, none⟩],
       seenAdd cache msg.id now)

/-- The acknowledgment delivered to the join callback. -/
structure JoinAck where
  room : String
  ok : Bool
  reason : Option String
  allowedRooms : Option (List String)
deriving DecidableEq

/-- The join handler of the relay: returns the acknowledgment and the
room recorded into the socket membership, when any. -/
def joinHandler (cfg : RelayConfig) (rawRoom : RawField) :
    JoinAck × Option String :=
  let room := normalizeRoom rawRoom
  if room = "" then
    (⟨jsStringOf rawRoom, false, some "invalid_room", some (ROOM_LIST cfg)⟩,
     none)
  else if roomAllowed cfg room = false then
    (⟨room, false, some "room_not_allowed", some (ROOM_LIST cfg)⟩, none)
  else
    (⟨room, true, none, none⟩, some room)

/-- Outcome of the connect-time middleware. -/
inductive Admission
  | admitted
  | rejected (reason : String)
deriving DecidableEq

/-- The invite gate middleware: open mode admits everyone; otherwise a
connection must present a string token from the credential set.  The
argument is the presented token: none stands for an absent or
non-string handshake token. -/
def inviteGate (cfg : RelayConfig) (authToken : Option String) : Admission :=
  if INVITE_ONLY cfg = false then Admission.admitted
  else
    let tokenStr := authToken.getD ""
    if tokenStr = "" ∨ (INVITE_TOKENS cfg).contains tokenStr = false then
      Admission.rejected "unauthorized"
    else Admission.admitted

/-- What the relay process does after configuration is read. -/
inductive StartupOutcome
  | listening (inviteOnly : Bool)
  | exitFailure (code : Nat)
deriving DecidableEq

/-- Recognizer for a failed start. -/
def isExit : StartupOutcome → Bool
  | StartupOutcome.exitFailure _ => true
  | _ => false

/-- Startup of the relay: the source calls server.listen unconditionally
after computing INVITE_ONLY; no configuration check aborts the
process. -/
def startup (cfg : RelayConfig) : StartupOutcome :=
  StartupOutcome.listening (INVITE_ONLY cfg)

/-- Client-side delivery tag of a message row. -/
inductive Delivery
  | pending
  | sent
  | failed
deriving DecidableEq

/-- One row of the client message list. -/
structure ChatItem where
  env : ChatEnvelope
  delivery : Option Delivery
  error : Option String
deriving DecidableEq

/-- The client reconciler state: the pendingIds set, the pendingMap from
id to envelope, the attempt counters, and the rendered message list. -/
structure ClientState where
  pendingIds : List String
  pendingMap : List (String × ChatEnvelope)
  attempts : List (String × Nat)
  messages : List ChatItem
deriving DecidableEq

/-- RETRY_MAX from the client. -/
def RETRY_MAX : Nat := 5

/-- markPendingFailed from the client: drop the id from the pending
bookkeeping and mark its message row failed with the given reason. -/
def markPendingFailed (st : ClientState) (id : String) (reason : String) :
    ClientState :=
  { pendingIds := st.pendingIds.filter (fun x => x ≠ id)
    pendingMap := mapDelete st.pendingMap id
    attempts := mapDelete st.attempts id
    messages := st.messages.map (fun m =>
      if m.env.id = id then
        { m with delivery := some Delivery.failed, error := some reason }
      else m) }

/-- One step of the byRoom grouping in flushPending: push the envelope
onto the group of its room, creating the group at the end on first
sight (JavaScript Map insertion order). -/
def addToGroup (gs : List (String × List ChatEnvelope)) (r : String)
    (env : ChatEnvelope) : List (String × List ChatEnvelope) :=
  if gs.any (fun g => g.1 = r) then
    gs.map (fun g => if g.1 = r then (g.1, g.2 ++ [env]) else g)
  else gs ++ [(r, [env])]

/-- The byRoom grouping loop of flushPending: walk pendingIds, look each
id up in pendingMap (skipping stale ids), and group by room. -/
def buildGroups (st : ClientState) : List (String × List ChatEnvelope) :=
  st.pendingIds.foldl (fun gs id =>
    match mapGet st.pendingMap id with
    | none => gs
    | some env => addToGroup gs env.room env) []

/-- The per-envelope body of flushPending once the room join succeeded:
bump the attempt counter; past RETRY_MAX mark the message failed with
retry_limit instead of resending, otherwise emit the envelope. -/
def stepEnv (acc : ClientState × List ChatEnvelope) (env : ChatEnvelope) :
    ClientState × List ChatEnvelope :=
  let n := (mapGet acc.1.attempts env.id).getD 0 + 1
  let st1 := { acc.1 with attempts := mapSet acc.1.attempts env.id n }
  if n > RETRY_MAX then (markPendingFailed st1 env.id "retry_limit", acc.2)
  else (st1, acc.2 ++ [env])

/-- The per-group body of flushPending: when the join for the room is
denied every envelope of the group is marked failed with join_denied;
otherwise each envelope goes through stepEnv. -/
def stepGroup (joinOk : String → Bool)
    (acc : ClientState × List ChatEnvelope)
    (g : String × List ChatEnvelope) : ClientState × List ChatEnvelope :=
  if joinOk g.1 then g.2.foldl stepEnv acc
  else (g.2.foldl (fun s env => markPendingFailed s env.id "join_denied")
          acc.1, acc.2)

/-- flushPending from the client: group the pending envelopes by room,
then process each group; joinOk gives the outcome of ensureJoined for
each room on this reconnection.  Returns the new state and the
envelopes re-emitted to the relay, in emission order. -/
def flushPending (joinOk : String → Bool) (st : ClientState) :
    ClientState × List ChatEnvelope :=
  (buildGroups st).foldl (stepGroup joinOk) (st, [])

/-- The client chat_ack listener: acknowledgments with an empty id are
ignored; otherwise the id leaves the pending bookkeeping and the
matching message row is resolved. -/
def handleChatAck (st : ClientState) (ack : ChatAck) : ClientState :=
  if ack.id = "" then st
  else
    { pendingIds := st.pendingIds.filter (fun x => x ≠ ack.id)
      pendingMap := mapDelete st.pendingMap ack.id
      attempts := mapDelete st.attempts ack.id
      messages := st.messages.map (fun m =>
        if m.env.id ≠ ack.id then m
        else if ack.ok then
          { m with delivery := some Delivery.sent, error := some "" }
        else
          { m with delivery := some Delivery.failed,
                   error := some (ack.reason.getD "rejected") }) }

/-- Sortedness test used only to state the sortedness the spec claims:
lexicographic order on code points.  Modelled from the spec: the spec
says the allowed-room list is returned sorted, and the source does not
sort, so this comparator stands for the standard string order. -/
def lexLeSpec : List Nat → List Nat → Bool
  | [], _ => true
  | _ :: _, [] => false
  | a :: as, b :: bs =>
    if a < b then true else if b < a then false else lexLeSpec as bs

/-- Spec-side string comparison for the sortedness claim. -/
def strLeSpec (a b : String) : Bool :=
  lexLeSpec (a.data.map Char.toNat) (b.data.map Char.toNat)

/-- Spec-side sortedness of a string list under a comparator. -/
def sortedBySpec (le : String → String → Bool) : List String → Bool
  | [] => true
  | [_] => true
  | a :: b :: rest => le a b && sortedBySpec le (b :: rest)

/-- One step of flushPending after the grouped envelopes are annotated
with the join outcome of their group: a denied group entry marks the
message failed with join_denied, an allowed entry goes through stepEnv. -/
def annStep (acc : ClientState × List ChatEnvelope)
    (p : Bool × ChatEnvelope) : ClientState × List ChatEnvelope :=
  if p.1 then stepEnv acc p.2
  else (markPendingFailed acc.1 p.2.id "join_denied", acc.2)

/-- The envelopes held by a group list, in group order. -/
def envsOf (gs : List (String × List ChatEnvelope)) : List ChatEnvelope :=
  (gs.map Prod.snd).flatten

/-- The grouped envelopes annotated with the join outcome of their
group key. -/
def annotate (joinOk : String → Bool)
    (gs : List (String × List ChatEnvelope)) : List (Bool × ChatEnvelope) :=
  gs.flatMap (fun g => g.2.map (fun e => (joinOk g.1, e)))

/-- Witness id maker: distinct strings of distinct lengths. -/
def witId (n : Nat) : String :=
  ⟨List.replicate n 'a'⟩

/-- Witness tail: SEEN_MAX further distinct ids. -/
def witRest : List String :=
  (List.range SEEN_MAX).map (fun n => witId (n + 1))

/-- Witness tail of SEEN_MAX distinct non-empty ids, all of length at
least two. -/
def witRest2 : List String :=
  (List.range SEEN_MAX).map (fun n => witId (n + 2))

/-- The default configuration: no environment overrides. -/
def cfg0 : RelayConfig := ⟨none, none⟩

/-- A configuration whose allowed-room list is written out of order. -/
def cfgZ : RelayConfig := ⟨some "zebra,alpha", none⟩

/-- A configuration with two invite tokens. -/
def cfgTok : RelayConfig := ⟨none, some "tok1,tok2"⟩

/-- A configuration where INVITE_TOKENS is set but holds only blanks. -/
def cfgBlankTokens : RelayConfig := ⟨none, some " , "⟩

/-- A 65-character room name, one over the roomMax bound. -/
def room65 : String := ⟨List.replicate 65 'a'⟩

/-- A well-formed raw envelope for the allowed room family. -/
def rawEnvFamily : Option RawMsg :=
  some ⟨RawField.str "m1", RawField.str "family", RawField.str "alice",
    RawField.int 0, RawField.str "hi"⟩

/-- A well-formed raw envelope for a room outside every default list. -/
def rawEnvZ : Option RawMsg :=
  some ⟨RawField.str "m1", RawField.str "zzz", RawField.str "alice",
    RawField.int 0, RawField.str "hi"⟩

/-- The validated envelope carried by rawEnvFamily. -/
def envFamily : ChatEnvelope := ⟨"m1", "family", "alice", 0, "hi"⟩

/-- A client state holding one pending envelope at five prior attempts. -/
def stExhausted : ClientState :=
  { pendingIds := ["m1"]
    pendingMap := [("m1", envFamily)]
    attempts := [("m1", 5)]
    messages := [⟨envFamily, some Delivery.pending, some ""⟩] }

/-- A client state holding one pending envelope with no prior attempts. -/
def stFresh : ClientState :=
  { pendingIds := ["m1"]
    pendingMap := [("m1", envFamily)]
    attempts := [("m1", 0)]
    messages := [⟨envFamily, some Delivery.pending, some ""⟩] }

theorem find?_map_update {α : Type} (m : List (String × α)) (k : String)
    (v : α) (h : m.any (fun p => p.1 = k) = true) :
    (m.map (fun p => if p.1 = k then (k, v) else p)).find?
      (fun p => p.1 = k) = some (k, v) := by
  induction m with
  | nil => simp at h
  | cons p rest ih =>
    by_cases hp : p.1 = k
    · simp [hp, List.find?_cons]
    · have h' : rest.any (fun p => p.1 = k) = true := by
        simp only [List.any_cons, Bool.or_eq_true, decide_eq_true_eq] at h
        rcases h with h | h
        · exact absurd h hp
        · exact h
      simp [hp, List.find?_cons, ih h']

theorem find?_map_update_ne {α : Type} (m : List (String × α))
    (k k' : String) (v : α) (h : k' ≠ k) :
    (m.map (fun p => if p.1 = k then (k, v) else p)).find?
      (fun p => p.1 = k') = m.find? (fun p => p.1 = k') := by
  induction m with
  | nil => simp
  | cons p rest ih =>
    by_cases hp : p.1 = k
    · have h1 : ¬(k = k') := fun hc => h hc.symm
      have h2 : ¬(p.1 = k') := by rw [hp]; exact h1
      simp [hp, List.find?_cons, h1, h2, ih]
    · by_cases hk' : p.1 = k'
      · have h1 : ¬(k' = k) := h
        simp [hp, List.find?_cons, hk', h1]
      · simp [hp, List.find?_cons, hk', ih]

theorem mapGet_mapSet_self {α : Type} (m : List (String × α)) (k : String)
    (v : α) : mapGet (mapSet m k v) k = some v := by
  unfold mapGet mapSet
  by_cases h : m.any (fun p => p.1 = k) = true
  · simp [h, find?_map_update m k v h]
  · have hnone : m.find? (fun p => p.1 = k) = none := by
      rw [List.find?_eq_none]
      intro x hx
      simp only [Bool.not_eq_true, decide_eq_false_iff_not]
      intro hc
      exact h (List.any_eq_true.mpr ⟨x, hx, by simp [hc]⟩)
    simp [h, List.find?_append, hnone, List.find?_cons]

theorem mapGet_mapSet_ne {α : Type} (m : List (String × α))
    (k k' : String) (v : α) (h : k' ≠ k) :
    mapGet (mapSet m k v) k' = mapGet m k' := by
  unfold mapGet mapSet
  by_cases hany : m.any (fun p => p.1 = k) = true
  · simp [hany, find?_map_update_ne m k k' v h]
  · have h1 : ¬(k = k') := fun hc => h hc.symm
    simp [hany, List.find?_append, List.find?_cons, h1]

theorem mapGet_mapDelete_self {α : Type} (m : List (String × α))
    (k : String) : mapGet (mapDelete m k) k = none := by
  unfold mapGet mapDelete
  have : (m.filter fun p => p.1 ≠ k).find? (fun p => p.1 = k) = none := by
    rw [List.find?_eq_none]
    intro x hx
    rw [List.mem_filter] at hx
    simpa using hx.2
  simp [this]

theorem find?_filter_ne {α : Type} (m : List (String × α))
    (k k' : String) (h : k' ≠ k) :
    (m.filter fun p => p.1 ≠ k).find? (fun p => p.1 = k') =
      m.find? (fun p => p.1 = k') := by
  induction m with
  | nil => simp
  | cons p rest ih =>
    rw [List.filter_cons]
    by_cases hp : p.1 = k
    · have h2 : ¬((fun q : String × α => decide (q.1 = k')) p = true) := by
        simp only [decide_eq_true_eq]
        rw [hp]
        exact fun hc => h hc.symm
      rw [if_neg (by simp [hp]), ih, List.find?_cons_of_neg rest h2]
    · rw [if_pos (by simp [hp])]
      by_cases hk' : p.1 = k'
      · rw [List.find?_cons_of_pos _ (by simp [hk']),
          List.find?_cons_of_pos rest (by simp [hk'])]
      · rw [List.find?_cons_of_neg _ (by simp [hk']),
          List.find?_cons_of_neg rest (by simp [hk']), ih]

theorem mapGet_mapDelete_ne {α : Type} (m : List (String × α))
    (k k' : String) (h : k' ≠ k) :
    mapGet (mapDelete m k) k' = mapGet m k' := by
  unfold mapGet mapDelete
  rw [find?_filter_ne m k k' h]

theorem evict_le (cap : Nat) (l : List (String × Nat))
    (h : l.length ≤ cap) : evict cap l = l := by
  cases l with
  | nil => rfl
  | cons p rest =>
    unfold evict
    have hc : ¬(rest.length + 1 > cap) := by
      simp only [List.length_cons] at h
      omega
    rw [if_neg hc]

theorem evict_cons_empty (cap : Nat) (p : String × Nat)
    (rest : List (String × Nat)) (h : p.1 = "") :
    evict cap (p :: rest) = p :: rest := by
  unfold evict
  by_cases hc : rest.length + 1 > cap
  · rw [if_pos hc, if_pos h]
  · rw [if_neg hc]

theorem evict_eq_drop_of_ne_empty (cap : Nat) (l : List (String × Nat))
    (hne : ∀ p ∈ l, p.1 ≠ "") :
    evict cap l = l.drop (l.length - cap) := by
  induction l with
  | nil => simp [evict]
  | cons p rest ih =>
    unfold evict
    by_cases h : rest.length + 1 > cap
    · have hp : ¬(p.1 = "") := hne p (List.mem_cons_self p rest)
      have hlen : (p :: rest).length - cap = (rest.length - cap) + 1 := by
        simp only [List.length_cons]
        omega
      rw [if_pos h, if_neg hp,
        ih (fun q hq => hne q (List.mem_cons_of_mem p hq)), hlen,
        List.drop_succ_cons]
    · have hlen : (p :: rest).length - cap = 0 := by
        simp only [List.length_cons]
        omega
      rw [if_neg h, hlen, List.drop_zero]

theorem evict_exists_drop (cap : Nat) (l : List (String × Nat)) :
    ∃ n, evict cap l = l.drop n ∧ n ≤ l.length - cap := by
  induction l with
  | nil => exact ⟨0, rfl, by simp⟩
  | cons p rest ih =>
    unfold evict
    by_cases h : rest.length + 1 > cap
    · by_cases hp : p.1 = ""
      · refine ⟨0, ?_, by omega⟩
        rw [if_pos h, if_pos hp, List.drop_zero]
      · obtain ⟨n, hn1, hn2⟩ := ih
        refine ⟨n + 1, ?_, ?_⟩
        · rw [if_pos h, if_neg hp, hn1, List.drop_succ_cons]
        · simp only [List.length_cons]
          omega
    · refine ⟨0, ?_, by omega⟩
      rw [if_neg h, List.drop_zero]

theorem seenHas_iff (cache : List (String × Nat)) (id : String) :
    seenHas cache id = true ↔ id ∈ cache.map Prod.fst := by
  simp [seenHas, List.elem_iff]

theorem mapSet_keys_of_mem {α : Type} (m : List (String × α))
    (k : String) (v : α) (h : m.any (fun p => p.1 = k) = true) :
    (mapSet m k v).map Prod.fst = m.map Prod.fst := by
  unfold mapSet
  rw [if_pos h, List.map_map]
  apply List.map_congr_left
  intro p _
  by_cases hp : p.1 = k
  · simp [hp]
  · simp [hp]

theorem mapSet_append_of_not_mem {α : Type} (m : List (String × α))
    (k : String) (v : α) (h : ¬m.any (fun p => p.1 = k) = true) :
    mapSet m k v = m ++ [(k, v)] := by
  unfold mapSet
  rw [if_neg h]

theorem seenAdd_mem_self (cache : List (String × Nat)) (id : String)
    (now : Nat) (h : cache.length ≤ SEEN_MAX) :
    seenHas (seenAdd cache id now) id = true := by
  unfold seenAdd
  by_cases hany : cache.any (fun p => p.1 = id) = true
  · have hkeys := mapSet_keys_of_mem cache id now hany
    have hlen : (mapSet cache id now).length = cache.length := by
      have := congrArg List.length hkeys
      simpa using this
    rw [evict_le _ _ (by rw [hlen]; exact h), seenHas_iff, hkeys]
    rw [List.any_eq_true] at hany
    obtain ⟨p, hp, hpk⟩ := hany
    simp only [decide_eq_true_eq] at hpk
    exact List.mem_map.mpr ⟨p, hp, hpk⟩
  · rw [mapSet_append_of_not_mem cache id now hany]
    obtain ⟨n, hn1, hn2⟩ := evict_exists_drop SEEN_MAX (cache ++ [(id, now)])
    rw [hn1, seenHas_iff]
    have hS : 1 ≤ SEEN_MAX := by decide
    have hd : n ≤ cache.length := by
      simp only [List.length_append, List.length_cons, List.length_nil]
        at hn2
      omega
    rw [List.drop_append_of_le_length hd]
    simp

theorem parseList_mem_ne_empty (raw : Option String) (s : String)
    (h : s ∈ parseList raw) : s ≠ "" := by
  unfold parseList at h
  rw [List.mem_filter] at h
  simpa using h.2

theorem jsToLower_eq_empty {s : String} (h : jsToLower s = "") : s = "" := by
  unfold jsToLower at h
  have hdata := congrArg String.data h
  simp only [String.data] at hdata
  have hnil : s.data = [] := by
    have := List.map_eq_nil_iff.mp hdata
    exact this
  cases s
  simp_all

theorem ROOM_LIST_not_mem_empty (cfg : RelayConfig) :
    ¬("" ∈ ROOM_LIST cfg) := by
  intro h
  unfold ROOM_LIST at h
  rw [List.mem_map] at h
  obtain ⟨r, hr, hlow⟩ := h
  have hr0 : r ≠ "" := by
    by_cases hA : ALLOWED_ROOMS cfg ≠ []
    · rw [if_pos hA] at hr
      unfold ALLOWED_ROOMS at hr
      rw [List.mem_map] at hr
      obtain ⟨r0, hr0, rfl⟩ := hr
      intro hc
      exact parseList_mem_ne_empty _ _ hr0 (jsToLower_eq_empty hc)
    · rw [if_neg hA] at hr
      unfold DEFAULT_ROOMS at hr
      simp only [List.mem_cons, List.not_mem_nil, or_false] at hr
      rcases hr with rfl | rfl | rfl | rfl | rfl | rfl
      · decide
      · decide
      · decide
      · decide
      · decide
      · decide
  exact hr0 (jsToLower_eq_empty hlow)

theorem roomAllowed_ne_empty (cfg : RelayConfig) (r : String)
    (h : roomAllowed cfg r = true) : r ≠ "" := by
  intro hc
  subst hc
  unfold roomAllowed at h
  rw [List.contains_eq_any_beq, List.any_eq_true] at h
  obtain ⟨x, hx, hbe⟩ := h
  have : x = "" := by
    have := (beq_iff_eq ..).mp hbe
    exact this.symm
  subst this
  exact ROOM_LIST_not_mem_empty cfg hx

theorem seenInsertAll_append (cache : List (String × Nat))
    (ids : List String) (a : String) (times : String → Nat) :
    seenInsertAll cache (ids ++ [a]) times =
      seenAdd (seenInsertAll cache ids times) a (times a) := by
  unfold seenInsertAll
  rw [List.foldl_append]
  rfl

theorem seenInsertAll_keys (ids : List String) (times : String → Nat) :
    ids.Nodup → "" ∉ ids →
    (seenInsertAll [] ids times).map Prod.fst =
      ids.drop (ids.length - SEEN_MAX) := by
  induction ids using List.reverseRecOn with
  | nil =>
    intro _ _
    simp [seenInsertAll]
  | append_singleton l a ih =>
    intro h hno
    have hparts : l.Nodup ∧ a ∉ l := by
      rw [List.nodup_append] at h
      refine ⟨h.1, fun hc => ?_⟩
      exact h.2.2 hc (List.mem_singleton.mpr rfl)
    obtain ⟨hl, ha⟩ := hparts
    have hnol : "" ∉ l := fun hc => hno (List.mem_append_left _ hc)
    have hane : a ≠ "" := fun hc =>
      hno (List.mem_append_right _ (List.mem_singleton.mpr hc.symm))
    rw [seenInsertAll_append]
    set S := seenInsertAll [] l times with hSdef
    have hkeys : S.map Prod.fst = l.drop (l.length - SEEN_MAX) :=
      ih hl hnol
    have hfresh : ¬(S.any (fun p => p.1 = a) = true) := by
      intro hc
      rw [List.any_eq_true] at hc
      obtain ⟨p, hp, hpk⟩ := hc
      simp only [decide_eq_true_eq] at hpk
      have hmem : a ∈ S.map Prod.fst := List.mem_map.mpr ⟨p, hp, hpk⟩
      rw [hkeys] at hmem
      exact ha (List.drop_subset _ _ hmem)
    have hke : ∀ p ∈ S ++ [(a, times a)], p.1 ≠ "" := by
      intro p hp
      rcases List.mem_append.mp hp with h1 | h2
      · intro hc
        have hm : p.1 ∈ S.map Prod.fst := List.mem_map.mpr ⟨p, h1, rfl⟩
        rw [hkeys, hc] at hm
        exact hnol (List.drop_subset _ _ hm)
      · rw [List.mem_singleton] at h2
        subst h2
        exact hane
    unfold seenAdd
    rw [mapSet_append_of_not_mem _ _ _ hfresh,
      evict_eq_drop_of_ne_empty _ _ hke, List.map_drop,
      List.map_append, hkeys]
    have hSlen : S.length = l.length - (l.length - SEEN_MAX) := by
      have := congrArg List.length hkeys
      simpa using this
    have hSM : SEEN_MAX = 5000 := rfl
    rcases Nat.lt_or_ge l.length SEEN_MAX with hlt | hge
    · have h1 : l.length - SEEN_MAX = 0 := by omega
      have h3 : (S ++ [(a, times a)]).length - SEEN_MAX = 0 := by
        simp only [List.length_append, List.length_cons, List.length_nil]
        omega
      have h4 : (l ++ [a]).length - SEEN_MAX = 0 := by
        simp only [List.length_append, List.length_cons, List.length_nil]
        omega
      simp only [List.length_map] at h3 ⊢
      rw [h3, h4, List.drop_zero, List.drop_zero, h1, List.drop_zero]
      simp
    · have h5 : (S ++ [(a, times a)]).length - SEEN_MAX = 1 := by
        simp only [List.length_append, List.length_cons, List.length_nil]
        omega
      have h6 : (l ++ [a]).length - SEEN_MAX = (l.length - SEEN_MAX) + 1 := by
        simp only [List.length_append, List.length_cons, List.length_nil]
        omega
      simp only [List.length_map] at h5 ⊢
      rw [h5, h6]
      have hlen2 : 1 ≤ (l.drop (l.length - SEEN_MAX)).length := by
        rw [List.length_drop]
        omega
      rw [List.drop_append_of_le_length hlen2]
      have hle : (l.length - SEEN_MAX) + 1 ≤ l.length := by omega
      rw [List.drop_append_of_le_length hle, List.drop_drop]
      simp

theorem seenHas_false_of_not_mem (cache : List (String × Nat))
    (id : String) (h : ¬(id ∈ cache.map Prod.fst)) :
    seenHas cache id = false := by
  rw [Bool.eq_false_iff]
  intro hc
  exact h ((seenHas_iff cache id).mp hc)

theorem witId_injective : Function.Injective witId := by
  intro m n h
  have := congrArg (fun s : String => s.data.length) h
  simpa [witId] using this

theorem wit_nodup : (witId 0 :: witRest).Nodup := by
  have h1 : ((List.range (SEEN_MAX + 1)).map witId).Nodup :=
    List.Nodup.map witId_injective (List.nodup_range _)
  have h2 : (List.range (SEEN_MAX + 1)).map witId = witId 0 :: witRest := by
    rw [List.range_succ_eq_map, List.map_cons, List.map_map]
    unfold witRest
    congr 1
  rw [h2] at h1
  exact h1

theorem wit_len : witRest.length = SEEN_MAX := by
  unfold witRest
  simp

theorem wit2_nodup : (witId 1 :: witRest2).Nodup := by
  have hinj : Function.Injective (fun n : Nat => witId (n + 1)) := by
    intro a b hab
    have := witId_injective hab
    omega
  have h1 : ((List.range (SEEN_MAX + 1)).map
      (fun n => witId (n + 1))).Nodup :=
    List.Nodup.map hinj (List.nodup_range _)
  have h2 : (List.range (SEEN_MAX + 1)).map (fun n => witId (n + 1)) =
      witId 1 :: witRest2 := by
    rw [List.range_succ_eq_map, List.map_cons, List.map_map]
    unfold witRest2
    congr 1
  rw [h2] at h1
  exact h1

theorem wit2_len : witRest2.length = SEEN_MAX := by
  unfold witRest2
  simp

theorem wit2_no_empty : "" ∉ (witId 1 :: witRest2) := by
  intro h
  rcases List.mem_cons.mp h with h1 | h2
  · have := congrArg (fun s : String => s.data.length) h1
    simp [witId] at this
  · unfold witRest2 at h2
    rw [List.mem_map] at h2
    obtain ⟨n, _, heq⟩ := h2
    have := congrArg (fun s : String => s.data.length) heq
    simp [witId] at this

theorem seenInsertAll_empty_first (rest : List String)
    (times : String → Nat) :
    ("" :: rest).Nodup →
    (seenInsertAll [] ("" :: rest) times).map Prod.fst = "" :: rest := by
  induction rest using List.reverseRecOn with
  | nil =>
    intro _
    show (seenAdd [] "" (times "")).map Prod.fst = [""]
    unfold seenAdd mapSet
    rw [if_neg (by simp)]
    have hlen1 : (([] : List (String × Nat)) ++
        [("", times "")]).length = 1 := rfl
    rw [evict_le _ _ (by rw [hlen1]; decide)]
    rfl
  | append_singleton l a ih =>
    intro hnd
    have hsplit : ("" :: (l ++ [a])) = ("" :: l) ++ [a] := rfl
    rw [hsplit, seenInsertAll_append]
    rw [List.nodup_cons] at hnd
    obtain ⟨hn1, hn2⟩ := hnd
    have hnl : "" ∉ l := fun hc => hn1 (List.mem_append_left _ hc)
    have hna : a ≠ "" := fun hc =>
      hn1 (List.mem_append_right _ (List.mem_singleton.mpr hc.symm))
    have hlpack : l.Nodup ∧ a ∉ l := by
      rw [List.nodup_append] at hn2
      exact ⟨hn2.1, fun hc => hn2.2.2 hc (List.mem_singleton.mpr rfl)⟩
    have hkeys := ih (List.nodup_cons.mpr ⟨hnl, hlpack.1⟩)
    have hfresh : ¬((seenInsertAll [] ("" :: l) times).any
        (fun p => p.1 = a) = true) := by
      intro hc
      rw [List.any_eq_true] at hc
      obtain ⟨p, hp, hpk⟩ := hc
      simp only [decide_eq_true_eq] at hpk
      have hmem : a ∈ (seenInsertAll [] ("" :: l) times).map Prod.fst :=
        List.mem_map.mpr ⟨p, hp, hpk⟩
      rw [hkeys] at hmem
      rcases List.mem_cons.mp hmem with h1 | h2
      · exact hna h1
      · exact hlpack.2 h2
    unfold seenAdd
    rw [mapSet_append_of_not_mem _ _ _ hfresh]
    cases hS : seenInsertAll [] ("" :: l) times with
    | nil =>
      rw [hS] at hkeys
      simp at hkeys
    | cons q S2 =>
      rw [hS, List.map_cons] at hkeys
      injection hkeys with hq hrest
      rw [List.cons_append, evict_cons_empty _ _ _ hq, List.map_cons,
        List.map_append, hq, hrest]
      rfl

theorem contains_true_of_mem {l : List String} {x : String} (h : x ∈ l) :
    l.contains x = true := by
  rw [List.contains_eq_any_beq, List.any_eq_true]
  exact ⟨x, h, by simp⟩

theorem contains_false_of_not_mem {l : List String} {x : String}
    (h : x ∉ l) : l.contains x = false := by
  rw [Bool.eq_false_iff]
  intro hc
  rw [List.contains_eq_any_beq, List.any_eq_true] at hc
  obtain ⟨y, hy, hbe⟩ := hc
  have hyx : x = y := by simpa using hbe
  exact h (hyx ▸ hy)

theorem chatHandler_parse_fail (cfg : RelayConfig)
    (rooms : List String) (cache : List (String × Nat))
    (raw : Option RawMsg) (now : Nat) (zmsg : String)
    (h : safeParse raw = none) :
    chatHandler cfg rooms cache raw now zmsg =
      ([RelayEvent.chatAck ⟨extractId raw, false, some zmsg⟩], cache) := by
  unfold chatHandler
  rw [h]

theorem chatHandler_parse_ok (cfg : RelayConfig)
    (rooms : List String) (cache : List (String × Nat))
    (raw : Option RawMsg) (now : Nat) (zmsg : String)
    (msg : ChatEnvelope) (h : safeParse raw = some msg) :
    chatHandler cfg rooms cache raw now zmsg =
      (if normalizeRoomStr msg.room = "" ∨
          roomAllowed cfg (normalizeRoomStr msg.room) = false then
        ([RelayEvent.chatAck ⟨msg.id, false, some "room_not_allowed"⟩], cache)
      else if rooms.contains (normalizeRoomStr msg.room) = false then
        ([RelayEvent.chatAck ⟨msg.id, false, some "not_in_room"⟩], cache)
      else if seenHas cache msg.id then
        ([RelayEvent.chatAck ⟨msg.id, true, none⟩], cache)
      else
        ([RelayEvent.broadcast (normalizeRoomStr msg.room)
            { msg with room := normalizeRoomStr msg.room },
          RelayEvent.chatAck ⟨msg.id, true, none⟩],
         seenAdd cache msg.id now)) := by
  unfold chatHandler
  rw [h]

theorem joinHandler_eq (cfg : RelayConfig) (rawRoom : RawField) :
    joinHandler cfg rawRoom =
      (if normalizeRoom rawRoom = "" then
        (⟨jsStringOf rawRoom, false, some "invalid_room",
          some (ROOM_LIST cfg)⟩, none)
      else if roomAllowed cfg (normalizeRoom rawRoom) = false then
        (⟨normalizeRoom rawRoom, false, some "room_not_allowed",
          some (ROOM_LIST cfg)⟩, none)
      else (⟨normalizeRoom rawRoom, true, none, none⟩,
        some (normalizeRoom rawRoom))) := rfl

theorem inviteGate_eq (cfg : RelayConfig) (tok : Option String) :
    inviteGate cfg tok =
      (if INVITE_ONLY cfg = false then Admission.admitted
       else if tok.getD "" = "" ∨
          (INVITE_TOKENS cfg).contains (tok.getD "") = false then
        Admission.rejected "unauthorized"
       else Admission.admitted) := rfl

/-- C5 amended: markSeen records the id and evicts oldest-inserted
entries once the cache exceeds 5000, except that an empty-string oldest
key halts the eviction loop; for 5001 distinct NON-EMPTY ids inserted
into an empty cache the first id is no longer seen, the 5000 most
recent still are, and the cache sits exactly at capacity. -/
theorem dedup_cache_eviction (id0 : String) (rest : List String)
    (times : String → Nat) (hnodup : (id0 :: rest).Nodup)
    (hlen : rest.length = SEEN_MAX)
    (hno : "" ∉ id0 :: rest) :
    (seenInsertAll [] (id0 :: rest) times).length = SEEN_MAX ∧
    seenHas (seenInsertAll [] (id0 :: rest) times) id0 = false ∧
    ∀ id ∈ rest, seenHas (seenInsertAll [] (id0 :: rest) times) id = true := by
  have hkeys := seenInsertAll_keys (id0 :: rest) times hnodup hno
  have hidx : (id0 :: rest).length - SEEN_MAX = 1 := by
    simp only [List.length_cons]
    omega
  rw [hidx] at hkeys
  have hdrop : (id0 :: rest).drop 1 = rest := rfl
  rw [hdrop] at hkeys
  have hcons := List.nodup_cons.mp hnodup
  refine ⟨?_, ?_, ?_⟩
  · have := congrArg List.length hkeys
    simpa [hlen] using this
  · apply seenHas_false_of_not_mem
    rw [hkeys]
    exact hcons.1
  · intro id hid
    rw [seenHas_iff, hkeys]
    exact hid

/-- C5 counterexample: insert the empty string first, then 5000
distinct ids; the eviction loop halts on the falsy oldest key, the
cache retains all 5001 entries, and the first-inserted id is still
seen, contradicting the claim at this input. -/
theorem dedup_cache_eviction_cex :
    ("" :: witRest).Nodup ∧ witRest.length = SEEN_MAX ∧
    (seenInsertAll [] ("" :: witRest) (fun _ => 0)).length =
      SEEN_MAX + 1 ∧
    seenHas (seenInsertAll [] ("" :: witRest) (fun _ => 0)) "" = true := by
  have h0 : witId 0 = "" := rfl
  have hnd : ("" :: witRest).Nodup := by
    rw [← h0]
    exact wit_nodup
  have hkeys := seenInsertAll_empty_first witRest (fun _ => 0) hnd
  refine ⟨hnd, wit_len, ?_, ?_⟩
  · have hle := congrArg List.length hkeys
    simp only [List.length_map, List.length_cons, wit_len] at hle
    exact hle
  · rw [seenHas_iff, hkeys]
    exact List.mem_cons_self "" witRest

/-- Witness for C5 amended at 5001 concrete distinct non-empty ids. -/
theorem dedup_cache_eviction_witness :
    (witId 1 :: witRest2).Nodup ∧ witRest2.length = SEEN_MAX ∧
    "" ∉ (witId 1 :: witRest2) ∧
    ((seenInsertAll [] (witId 1 :: witRest2) (fun _ => 0)).length =
       SEEN_MAX ∧
     seenHas (seenInsertAll [] (witId 1 :: witRest2) (fun _ => 0))
       (witId 1) = false ∧
     ∀ id ∈ witRest2,
       seenHas (seenInsertAll [] (witId 1 :: witRest2) (fun _ => 0))
         id = true) :=
  ⟨wit2_nodup, wit2_len, wit2_no_empty,
   dedup_cache_eviction (witId 1) witRest2 (fun _ => 0) wit2_nodup
     wit2_len wit2_no_empty⟩

/-- C1: a validated envelope from a member of its (allowed, normalized)
room with a fresh id is broadcast exactly once with a success
acknowledgment on the first submission; resubmitting the same envelope
yields the success acknowledgment alone, with no further broadcast and
no cache change. -/
theorem idempotent_redelivery (cfg : RelayConfig) (rooms : List String)
    (cache : List (String × Nat)) (raw : Option RawMsg)
    (now1 now2 : Nat) (zmsg1 zmsg2 : String) (msg : ChatEnvelope)
    (hparse : safeParse raw = some msg)
    (hallow : roomAllowed cfg (normalizeRoomStr msg.room) = true)
    (hmem : rooms.contains (normalizeRoomStr msg.room) = true)
    (hfresh : seenHas cache msg.id = false)
    (hcap : cache.length ≤ SEEN_MAX) :
    (chatHandler cfg rooms cache raw now1 zmsg1).1 =
      [RelayEvent.broadcast (normalizeRoomStr msg.room)
        { msg with room := normalizeRoomStr msg.room },
       RelayEvent.chatAck ⟨msg.id, true, none⟩] ∧
    (chatHandler cfg rooms
        ((chatHandler cfg rooms cache raw now1 zmsg1).2)
        raw now2 zmsg2).1 =
      [RelayEvent.chatAck ⟨msg.id, true, none⟩] ∧
    (chatHandler cfg rooms
        ((chatHandler cfg rooms cache raw now1 zmsg1).2)
        raw now2 zmsg2).2 =
      (chatHandler cfg rooms cache raw now1 zmsg1).2 := by
  have hguard : ¬(normalizeRoomStr msg.room = "" ∨
      roomAllowed cfg (normalizeRoomStr msg.room) = false) := by
    push_neg
    refine ⟨roomAllowed_ne_empty cfg _ hallow, ?_⟩
    simp [hallow]
  have hmem' : ¬(rooms.contains (normalizeRoomStr msg.room) = false) := by
    rw [hmem]
    simp
  have hfresh' : ¬(seenHas cache msg.id = true) := by
    rw [hfresh]
    simp
  have hfirst : chatHandler cfg rooms cache raw now1 zmsg1 =
      ([RelayEvent.broadcast (normalizeRoomStr msg.room)
          { msg with room := normalizeRoomStr msg.room },
        RelayEvent.chatAck ⟨msg.id, true, none⟩],
       seenAdd cache msg.id now1) := by
    rw [chatHandler_parse_ok cfg rooms cache raw now1 zmsg1 msg hparse,
      if_neg hguard, if_neg hmem', if_neg hfresh']
  have hseen2 : seenHas (seenAdd cache msg.id now1) msg.id = true :=
    seenAdd_mem_self cache msg.id now1 hcap
  have hsecond : chatHandler cfg rooms (seenAdd cache msg.id now1)
      raw now2 zmsg2 =
      ([RelayEvent.chatAck ⟨msg.id, true, none⟩],
       seenAdd cache msg.id now1) := by
    rw [chatHandler_parse_ok cfg rooms _ raw now2 zmsg2 msg hparse,
      if_neg hguard, if_neg hmem', if_pos hseen2]
  refine ⟨by rw [hfirst], ?_, ?_⟩
  · rw [hfirst]
    simp only []
    rw [hsecond]
  · rw [hfirst]
    simp only []
    rw [hsecond]

/-- Witness for C1 with the default configuration, a member of family,
and a fresh envelope submitted twice. -/
theorem idempotent_redelivery_witness :
    (chatHandler cfg0 ["family"] [] rawEnvFamily 0 "z").1 =
      [RelayEvent.broadcast (normalizeRoomStr envFamily.room)
        { envFamily with room := normalizeRoomStr envFamily.room },
       RelayEvent.chatAck ⟨envFamily.id, true, none⟩] ∧
    (chatHandler cfg0 ["family"]
        ((chatHandler cfg0 ["family"] [] rawEnvFamily 0 "z").2)
        rawEnvFamily 1 "z").1 =
      [RelayEvent.chatAck ⟨envFamily.id, true, none⟩] ∧
    (chatHandler cfg0 ["family"]
        ((chatHandler cfg0 ["family"] [] rawEnvFamily 0 "z").2)
        rawEnvFamily 1 "z").2 =
      (chatHandler cfg0 ["family"] [] rawEnvFamily 0 "z").2 :=
  idempotent_redelivery cfg0 ["family"] [] rawEnvFamily 0 1 "z" "z"
    envFamily (by decide) (by decide) (by decide) (by decide) (by decide)

/-- C2 counterexample: a validated envelope for a room the connection
never joined is not acknowledged not_in_room when the room is outside
the allowlist; the relay answers room_not_allowed instead. -/
theorem membership_gate_cex :
    (safeParse rawEnvZ).isSome = true ∧
    (([] : List String).contains (normalizeRoomStr "zzz")) = false ∧
    (chatHandler cfg0 [] [] rawEnvZ 0 "z").1 =
      [RelayEvent.chatAck ⟨"m1", false, some "room_not_allowed"⟩] ∧
    some "room_not_allowed" ≠ some "not_in_room" := by
  decide

/-- C2 amended: a validated envelope whose normalized room is in the
allowed set but not among the connection's joined rooms is acknowledged
not_in_room, with no broadcast and no cache change. -/
theorem membership_gate (cfg : RelayConfig) (rooms : List String)
    (cache : List (String × Nat)) (raw : Option RawMsg) (now : Nat)
    (zmsg : String) (msg : ChatEnvelope)
    (hparse : safeParse raw = some msg)
    (hallow : roomAllowed cfg (normalizeRoomStr msg.room) = true)
    (hmem : rooms.contains (normalizeRoomStr msg.room) = false) :
    chatHandler cfg rooms cache raw now zmsg =
      ([RelayEvent.chatAck ⟨msg.id, false, some "not_in_room"⟩], cache) := by
  have hguard : ¬(normalizeRoomStr msg.room = "" ∨
      roomAllowed cfg (normalizeRoomStr msg.room) = false) := by
    push_neg
    refine ⟨roomAllowed_ne_empty cfg _ hallow, ?_⟩
    simp [hallow]
  rw [chatHandler_parse_ok cfg rooms cache raw now zmsg msg hparse,
    if_neg hguard, if_pos hmem]

/-- Witness for C2 amended: nobody joined any room; envelope for
family is rejected not_in_room without broadcast. -/
theorem membership_gate_witness :
    chatHandler cfg0 [] [] rawEnvFamily 0 "z" =
      ([RelayEvent.chatAck ⟨envFamily.id, false, some "not_in_room"⟩],
       []) :=
  membership_gate cfg0 [] [] rawEnvFamily 0 "z" envFamily
    (by decide) (by decide) (by decide)

/-- C3: on every control path of the chat handler exactly one chat_ack
event is emitted. -/
theorem chat_single_ack (cfg : RelayConfig) (rooms : List String)
    (cache : List (String × Nat)) (raw : Option RawMsg) (now : Nat)
    (zmsg : String) :
    ((chatHandler cfg rooms cache raw now zmsg).1.filter
      isChatAck).length = 1 := by
  cases hp : safeParse raw with
  | none =>
    rw [chatHandler_parse_fail cfg rooms cache raw now zmsg hp]
    rfl
  | some msg =>
    rw [chatHandler_parse_ok cfg rooms cache raw now zmsg msg hp]
    by_cases h1 : (normalizeRoomStr msg.room = "" ∨
        roomAllowed cfg (normalizeRoomStr msg.room) = false)
    · rw [if_pos h1]
      rfl
    · rw [if_neg h1]
      by_cases h2 : rooms.contains (normalizeRoomStr msg.room) = false
      · rw [if_pos h2]
        rfl
      · rw [if_neg h2]
        by_cases h3 : seenHas cache msg.id = true
        · rw [if_pos h3]
          rfl
        · rw [if_neg h3]
          rfl

/-- C6 counterexample: with the allowed-room list configured as zebra
then alpha, a denied join echoes the list in configured order, which is
not sorted; the sorted list would be alpha then zebra. -/
theorem join_allowlist_cex :
    normalizeRoom (RawField.str "family") ≠ "" ∧
    roomAllowed cfgZ (normalizeRoom (RawField.str "family")) = false ∧
    (joinHandler cfgZ (RawField.str "family")).1 =
      ⟨"family", false, some "room_not_allowed", some ["zebra", "alpha"]⟩ ∧
    sortedBySpec strLeSpec ["zebra", "alpha"] = false ∧
    ["zebra", "alpha"] ≠ ["alpha", "zebra"] := by
  decide

/-- C6 amended: a join whose normalized room is non-empty but not
allowed is acknowledged room_not_allowed with allowedRooms equal to the
full configured room list in its configured (unsorted) order, and no
membership is recorded. -/
theorem join_allowlist_response (cfg : RelayConfig) (rawRoom : RawField)
    (h1 : normalizeRoom rawRoom ≠ "")
    (h2 : roomAllowed cfg (normalizeRoom rawRoom) = false) :
    joinHandler cfg rawRoom =
      (⟨normalizeRoom rawRoom, false, some "room_not_allowed",
        some (ROOM_LIST cfg)⟩, none) := by
  rw [joinHandler_eq, if_neg h1, if_pos h2]

/-- Witness for C6 amended at the default configuration. -/
theorem join_allowlist_response_witness :
    joinHandler cfg0 (RawField.str "zzz") =
      (⟨normalizeRoom (RawField.str "zzz"), false,
        some "room_not_allowed", some (ROOM_LIST cfg0)⟩, none) :=
  join_allowlist_response cfg0 (RawField.str "zzz") (by decide) (by decide)

/-- C7: with an empty credential set every connection is admitted; with
a non-empty set, an absent or unrecognized credential is rejected
unauthorized and a credential from the set is admitted. -/
theorem connection_admission (cfg : RelayConfig) (tok : Option String) :
    (INVITE_TOKENS cfg = [] → inviteGate cfg tok = Admission.admitted) ∧
    (INVITE_TOKENS cfg ≠ [] →
      (∀ s ∈ INVITE_TOKENS cfg, tok ≠ some s) →
      inviteGate cfg tok = Admission.rejected "unauthorized") ∧
    (∀ s, tok = some s → s ∈ INVITE_TOKENS cfg →
      inviteGate cfg tok = Admission.admitted) := by
  refine ⟨?_, ?_, ?_⟩
  · intro h
    have hio : INVITE_ONLY cfg = false := by
      simp [INVITE_ONLY, h]
    rw [inviteGate_eq, if_pos hio]
  · intro hne htok
    have hio : ¬(INVITE_ONLY cfg = false) := by
      simp [INVITE_ONLY, hne]
    rw [inviteGate_eq, if_neg hio]
    cases tok with
    | none =>
      have hc : (none : Option String).getD "" = "" := rfl
      rw [if_pos (Or.inl hc)]
    | some s =>
      have hnotmem : s ∉ INVITE_TOKENS cfg := fun hs => (htok s hs) rfl
      have hcf : (INVITE_TOKENS cfg).contains s = false :=
        contains_false_of_not_mem hnotmem
      rw [if_pos (Or.inr (by simpa using hcf))]
  · intro s hs hmem
    subst hs
    have hio : ¬(INVITE_ONLY cfg = false) := by
      simp only [INVITE_ONLY]
      intro hc
      rw [decide_eq_false_iff_not] at hc
      push_neg at hc
      rw [hc] at hmem
      simp at hmem
    rw [inviteGate_eq, if_neg hio]
    have hne' : s ≠ "" := by
      have := parseList_mem_ne_empty cfg.inviteTokensEnv s
      exact this hmem
    have hcont : (INVITE_TOKENS cfg).contains s = true :=
      contains_true_of_mem hmem
    have hcond : ¬((some s).getD "" = "" ∨
        (INVITE_TOKENS cfg).contains ((some s).getD "") = false) := by
      push_neg
      refine ⟨by simpa using hne', ?_⟩
      have hgd : (some s).getD "" = s := rfl
      rw [hgd, hcont]
      simp
    rw [if_neg hcond]

/-- Witness for C7 exercising the open-mode, rejected, and admitted
branches at concrete configurations. -/
theorem connection_admission_witness :
    inviteGate cfg0 (some "x") = Admission.admitted ∧
    inviteGate cfgTok none = Admission.rejected "unauthorized" ∧
    inviteGate cfgTok (some "bogus") = Admission.rejected "unauthorized" ∧
    inviteGate cfgTok (some "tok1") = Admission.admitted :=
  ⟨(connection_admission cfg0 (some "x")).1 (by decide),
   (connection_admission cfgTok none).2.1 (by decide) (by decide),
   (connection_admission cfgTok (some "bogus")).2.1 (by decide) (by decide),
   (connection_admission cfgTok (some "tok1")).2.2 "tok1" rfl (by decide)⟩

/-- C8 counterexample: a join for a 65-character room (over the
roomMax bound of 64) does not fail with invalid_room; the join handler
has no length check and the request falls through to the allowlist
check, failing with room_not_allowed. -/
theorem join_validation_cex :
    (normalizeRoom (RawField.str room65)).length > LIMITS_roomMax ∧
    (joinHandler cfg0 (RawField.str room65)).1.ok = false ∧
    (joinHandler cfg0 (RawField.str room65)).1.reason =
      some "room_not_allowed" ∧
    some "room_not_allowed" ≠ some "invalid_room" := by
  decide

/-- C8 amended: a join normalizes the raw room by trim plus lowercase;
an empty normalized room fails with invalid_room, and a non-empty
normalized room of any length never yields invalid_room (the join path
applies no length-bound check). -/
theorem join_validation_bound (cfg : RelayConfig) (rawRoom : RawField) :
    (normalizeRoom rawRoom = "" →
      joinHandler cfg rawRoom =
        (⟨jsStringOf rawRoom, false, some "invalid_room",
          some (ROOM_LIST cfg)⟩, none)) ∧
    (normalizeRoom rawRoom ≠ "" →
      (joinHandler cfg rawRoom).1.reason ≠ some "invalid_room") := by
  constructor
  · intro h
    rw [joinHandler_eq, if_pos h]
  · intro h
    rw [joinHandler_eq, if_neg h]
    by_cases h2 : roomAllowed cfg (normalizeRoom rawRoom) = false
    · rw [if_pos h2]
      intro hc
      simp at hc
    · rw [if_neg h2]
      intro hc
      simp at hc

/-- Witness for C8 amended: a blank room fails invalid_room and the
over-length room yields something other than invalid_room. -/
theorem join_validation_bound_witness :
    (normalizeRoom (RawField.str "  ") = "" →
      joinHandler cfg0 (RawField.str "  ") =
        (⟨jsStringOf (RawField.str "  "), false, some "invalid_room",
          some (ROOM_LIST cfg0)⟩, none)) ∧
    (normalizeRoom (RawField.str "  ") ≠ "" →
      (joinHandler cfg0 (RawField.str "  ")).1.reason ≠
        some "invalid_room") :=
  join_validation_bound cfg0 (RawField.str "  ")

/-- C9 counterexample: with INVITE_TOKENS set to blanks (an operator
asked for credentials but supplied none), the parsed credential set is
empty and the relay still starts listening in open mode; there is no
non-zero exit. -/
theorem fail_fast_cex :
    cfgBlankTokens.inviteTokensEnv = some " , " ∧
    INVITE_TOKENS cfgBlankTokens = [] ∧
    INVITE_ONLY cfgBlankTokens = false ∧
    startup cfgBlankTokens = StartupOutcome.listening false ∧
    isExit (startup cfgBlankTokens) = false := by
  decide

/-- C9 amended: startup never fails: for every configuration the relay
proceeds to listen, in invite-only mode exactly when the parsed
credential set is non-empty; no startup path exits non-zero. -/
theorem startup_always_listens (cfg : RelayConfig) :
    startup cfg = StartupOutcome.listening (INVITE_ONLY cfg) ∧
    isExit (startup cfg) = false :=
  ⟨rfl, rfl⟩

/-- C10: a chat payload that is not an object, or whose id field is
missing or not a string, is acknowledged ok false with the empty id
and leaves the cache unchanged; the client ignores acknowledgments
carrying an empty id. -/
theorem invalid_payload_empty_id_ack (cfg : RelayConfig)
    (rooms : List String) (cache : List (String × Nat))
    (raw : Option RawMsg) (now : Nat) (zmsg : String)
    (h : raw = none ∨
      ∃ m, raw = some m ∧ ∀ s, m.id ≠ RawField.str s) :
    (chatHandler cfg rooms cache raw now zmsg).1 =
      [RelayEvent.chatAck ⟨"", false, some zmsg⟩] ∧
    (chatHandler cfg rooms cache raw now zmsg).2 = cache ∧
    ∀ st : ClientState, handleChatAck st ⟨"", false, some zmsg⟩ = st := by
  have hparse : safeParse raw = none := by
    rcases h with rfl | ⟨m, rfl, hm⟩
    · rfl
    · obtain ⟨mid, mroom, mf, mt, mb⟩ := m
      cases mid with
      | str s => exact absurd rfl (hm s)
      | missing => rfl
      | int n => rfl
      | other => rfl
  have hid : extractId raw = "" := by
    rcases h with rfl | ⟨m, rfl, hm⟩
    · rfl
    · obtain ⟨mid, mroom, mf, mt, mb⟩ := m
      cases mid with
      | str s => exact absurd rfl (hm s)
      | missing => rfl
      | int n => rfl
      | other => rfl
  rw [chatHandler_parse_fail cfg rooms cache raw now zmsg hparse]
  refine ⟨by rw [hid], rfl, ?_⟩
  intro st
  unfold handleChatAck
  rw [if_pos rfl]

/-- Witness for C10 at a payload that is not an object. -/
theorem invalid_payload_empty_id_ack_witness :
    (chatHandler cfg0 [] [] none 0 "bad").1 =
      [RelayEvent.chatAck ⟨"", false, some "bad"⟩] ∧
    (chatHandler cfg0 [] [] none 0 "bad").2 = [] ∧
    ∀ st : ClientState, handleChatAck st ⟨"", false, some "bad"⟩ = st :=
  invalid_payload_empty_id_ack cfg0 [] [] none 0 "bad" (Or.inl rfl)

theorem foldl_annStep_false (es : List ChatEnvelope) (st : ClientState)
    (em : List ChatEnvelope) :
    es.foldl (fun a e => annStep a (false, e)) (st, em) =
      (es.foldl (fun s e => markPendingFailed s e.id "join_denied") st,
       em) := by
  induction es generalizing st with
  | nil => rfl
  | cons e rest ih =>
    simp only [List.foldl_cons]
    exact ih _

theorem foldl_stepGroup_eq (joinOk : String → Bool)
    (gs : List (String × List ChatEnvelope))
    (acc : ClientState × List ChatEnvelope) :
    gs.foldl (stepGroup joinOk) acc =
      (annotate joinOk gs).foldl annStep acc := by
  induction gs generalizing acc with
  | nil => rfl
  | cons g rest ih =>
    unfold annotate
    rw [List.foldl_cons, List.flatMap_cons, List.foldl_append]
    have hhead : stepGroup joinOk acc g =
        (g.2.map (fun e => (joinOk g.1, e))).foldl annStep acc := by
      unfold stepGroup
      by_cases h : joinOk g.1 = true
      · rw [if_pos h, h, List.foldl_map]
        rfl
      · have hf : joinOk g.1 = false := by
          revert h
          cases joinOk g.1 <;> simp
        rw [if_neg h, hf, List.foldl_map]
        obtain ⟨st, em⟩ := acc
        rw [foldl_annStep_false]
    rw [hhead]
    exact ih _

theorem flushPending_eq_annotated (joinOk : String → Bool)
    (st : ClientState) :
    flushPending joinOk st =
      (annotate joinOk (buildGroups st)).foldl annStep (st, []) := by
  unfold flushPending
  exact foldl_stepGroup_eq joinOk (buildGroups st) (st, [])

theorem addToGroup_keys (gs : List (String × List ChatEnvelope))
    (r : String) (env : ChatEnvelope) :
    (addToGroup gs r env).map Prod.fst =
      if gs.any (fun g => g.1 = r) = true then gs.map Prod.fst
      else gs.map Prod.fst ++ [r] := by
  unfold addToGroup
  by_cases h : gs.any (fun g => g.1 = r) = true
  · rw [if_pos h, if_pos h, List.map_map]
    apply List.map_congr_left
    intro g _
    by_cases hg : g.1 = r
    · simp [hg]
    · simp [hg]
  · rw [if_neg h, if_neg h, List.map_append]
    rfl

theorem addToGroup_keys_nodup (gs : List (String × List ChatEnvelope))
    (r : String) (env : ChatEnvelope)
    (h : (gs.map Prod.fst).Nodup) :
    ((addToGroup gs r env).map Prod.fst).Nodup := by
  rw [addToGroup_keys]
  by_cases hany : gs.any (fun g => g.1 = r) = true
  · rw [if_pos hany]
    exact h
  · rw [if_neg hany]
    rw [List.nodup_append]
    refine ⟨h, List.nodup_singleton r, ?_⟩
    intro x hx hxr
    rw [List.mem_singleton] at hxr
    subst hxr
    rw [List.mem_map] at hx
    obtain ⟨g, hg, hgr⟩ := hx
    exact hany (List.any_eq_true.mpr ⟨g, hg, by simp [hgr]⟩)

theorem envs_map_update_perm (r : String) (env : ChatEnvelope) :
    ∀ gs : List (String × List ChatEnvelope),
      (gs.map Prod.fst).Nodup →
      gs.any (fun g => g.1 = r) = true →
      (envsOf (gs.map
        (fun g => if g.1 = r then (g.1, g.2 ++ [env]) else g))).Perm
        (env :: envsOf gs) := by
  intro gs
  induction gs with
  | nil =>
    intro _ h
    simp at h
  | cons g rest ih =>
    intro hnd h
    by_cases hg : g.1 = r
    · have hrest : ∀ g2 ∈ rest, ¬(g2.1 = r) := by
        intro g2 hg2 hc
        have hmem : g.1 ∈ rest.map Prod.fst := by
          rw [hg, ← hc]
          exact List.mem_map.mpr ⟨g2, hg2, rfl⟩
        exact (List.nodup_cons.mp hnd).1 hmem
      have hmap : rest.map
          (fun g2 => if g2.1 = r then (g2.1, g2.2 ++ [env]) else g2) =
          rest := by
        have hcg : rest.map
            (fun g2 => if g2.1 = r then (g2.1, g2.2 ++ [env]) else g2) =
            rest.map id := by
          apply List.map_congr_left
          intro g2 hg2
          rw [if_neg (hrest g2 hg2)]
          rfl
        rw [hcg, List.map_id]
      rw [List.map_cons, if_pos hg, hmap]
      show ((g.2 ++ [env]) ++ envsOf rest).Perm (env :: (g.2 ++ envsOf rest))
      rw [List.append_assoc]
      exact List.perm_middle
    · have h' : rest.any (fun g2 => g2.1 = r) = true := by
        rcases List.any_eq_true.mp h with ⟨g2, hg2, hp⟩
        simp only [decide_eq_true_eq] at hp
        rcases List.mem_cons.mp hg2 with rfl | hmem
        · exact absurd hp hg
        · exact List.any_eq_true.mpr ⟨g2, hmem, by simp [hp]⟩
      have hnd' : (rest.map Prod.fst).Nodup := (List.nodup_cons.mp hnd).2
      rw [List.map_cons, if_neg hg]
      show (g.2 ++ envsOf (rest.map
        (fun g2 => if g2.1 = r then (g2.1, g2.2 ++ [env]) else g2))).Perm
        (env :: (g.2 ++ envsOf rest))
      exact (List.Perm.append_left g.2 (ih hnd' h')).trans List.perm_middle

theorem addToGroup_envs_perm (gs : List (String × List ChatEnvelope))
    (r : String) (env : ChatEnvelope)
    (hnd : (gs.map Prod.fst).Nodup) :
    (envsOf (addToGroup gs r env)).Perm (env :: envsOf gs) := by
  unfold addToGroup
  by_cases h : gs.any (fun g => g.1 = r) = true
  · rw [if_pos h]
    exact envs_map_update_perm r env gs hnd h
  · rw [if_neg h]
    have heq : envsOf (gs ++ [(r, [env])]) = envsOf gs ++ [env] := by
      unfold envsOf
      rw [List.map_append, List.flatten_append]
      simp
    rw [heq]
    exact List.perm_append_comm

theorem mapGet_eq_some {α : Type} (m : List (String × α)) (k : String)
    (v : α) (h : mapGet m k = some v) :
    ∃ p ∈ m, p.1 = k ∧ p.2 = v := by
  unfold mapGet at h
  cases hf : m.find? (fun p => p.1 = k) with
  | none =>
    rw [hf] at h
    simp at h
  | some p =>
    rw [hf] at h
    simp at h
    have hp1 : p.1 = k := by
      have := List.find?_some hf
      simpa using this
    refine ⟨p, List.mem_of_find?_eq_some hf, hp1, by simpa using h⟩

theorem buildGroups_step_inv (pmap : List (String × ChatEnvelope))
    (ids : List String) :
    ∀ gs0 : List (String × List ChatEnvelope),
      (gs0.map Prod.fst).Nodup →
      ((ids.foldl (fun gs id =>
        match mapGet pmap id with
        | none => gs
        | some env => addToGroup gs env.room env) gs0).map Prod.fst).Nodup ∧
      (envsOf (ids.foldl (fun gs id =>
        match mapGet pmap id with
        | none => gs
        | some env => addToGroup gs env.room env) gs0)).Perm
        (envsOf gs0 ++ ids.filterMap (mapGet pmap)) := by
  induction ids with
  | nil =>
    intro gs0 hnd
    simp only [List.foldl_nil, List.filterMap_nil, List.append_nil]
    exact ⟨hnd, List.Perm.refl _⟩
  | cons id rest ih =>
    intro gs0 hnd
    cases hm : mapGet pmap id with
    | none =>
      simp only [List.foldl_cons, hm, List.filterMap_cons, hm]
      exact ih gs0 hnd
    | some env =>
      simp only [List.foldl_cons, hm, List.filterMap_cons, hm]
      have hnd1 : ((addToGroup gs0 env.room env).map Prod.fst).Nodup :=
        addToGroup_keys_nodup gs0 env.room env hnd
      obtain ⟨hndR, hpermR⟩ := ih (addToGroup gs0 env.room env) hnd1
      refine ⟨hndR, ?_⟩
      have hstep : (envsOf (addToGroup gs0 env.room env)).Perm
          (env :: envsOf gs0) := addToGroup_envs_perm gs0 env.room env hnd
      have h1 : (envsOf (addToGroup gs0 env.room env) ++
          rest.filterMap (mapGet pmap)).Perm
          ((env :: envsOf gs0) ++ rest.filterMap (mapGet pmap)) :=
        List.Perm.append_right _ hstep
      have h2 : ((env :: envsOf gs0) ++
          rest.filterMap (mapGet pmap)).Perm
          (envsOf gs0 ++ env :: rest.filterMap (mapGet pmap)) := by
      
        exact List.perm_middle.symm
      exact (hpermR.trans h1).trans h2

theorem buildGroups_perm (st : ClientState) :
    ((buildGroups st).map Prod.fst).Nodup ∧
    (envsOf (buildGroups st)).Perm
      (st.pendingIds.filterMap (mapGet st.pendingMap)) := by
  have h := buildGroups_step_inv st.pendingMap st.pendingIds []
    (by simp)
  unfold buildGroups
  exact h

theorem buildGroups_room_inv (st : ClientState) :
    ∀ g ∈ buildGroups st, ∀ e ∈ g.2, e.room = g.1 := by
  unfold buildGroups
  have hgen : ∀ ids : List String,
      ∀ gs0 : List (String × List ChatEnvelope),
      (∀ g ∈ gs0, ∀ e ∈ g.2, e.room = g.1) →
      ∀ g ∈ ids.foldl (fun gs id =>
        match mapGet st.pendingMap id with
        | none => gs
        | some env => addToGroup gs env.room env) gs0,
      ∀ e ∈ g.2, e.room = g.1 := by
    intro ids
    induction ids with
    | nil =>
      intro gs0 hinv
      exact hinv
    | cons id rest ih =>
      intro gs0 hinv
      simp only [List.foldl_cons]
      cases hm : mapGet st.pendingMap id with
      | none => exact ih gs0 hinv
      | some env =>
        refine ih (addToGroup gs0 env.room env) ?_
        intro g hg e he
        unfold addToGroup at hg
        by_cases hany : gs0.any (fun g2 => g2.1 = env.room) = true
        · rw [if_pos hany] at hg
          rw [List.mem_map] at hg
          obtain ⟨g0, hg0, rfl⟩ := hg
          by_cases hkey : g0.1 = env.room
          · rw [if_pos hkey] at he ⊢
            simp only at he ⊢
            rcases List.mem_append.mp he with h1 | h2
            · exact hinv g0 hg0 e h1
            · rw [List.mem_singleton] at h2
              subst h2
              rw [hkey]
          · rw [if_neg hkey] at he ⊢
            exact hinv g0 hg0 e he
        · rw [if_neg hany] at hg
          rcases List.mem_append.mp hg with h1 | h2
          · exact hinv g h1 e he
          · rw [List.mem_singleton] at h2
            subst h2
            rw [List.mem_singleton] at he
            subst he
            rfl
  intro g hg
  exact hgen st.pendingIds [] (by simp) g hg

theorem filterMap_ids (ids : List String)
    (pmap : List (String × ChatEnvelope))
    (hcons : ∀ p ∈ pmap, p.2.id = p.1) :
    (ids.filterMap (mapGet pmap)).map (fun e => e.id) =
      ids.filter (fun k => (mapGet pmap k).isSome) := by
  induction ids with
  | nil => rfl
  | cons id rest ih =>
    cases h : mapGet pmap id with
    | none =>
      simp only [List.filterMap_cons, h, List.filter_cons, Option.isSome_none,
        Bool.false_eq_true, if_false]
      exact ih
    | some e =>
      have hid : e.id = id := by
        obtain ⟨p, hp, hp1, hp2⟩ := mapGet_eq_some pmap id e h
        rw [← hp2, hcons p hp, hp1]
      simp only [List.filterMap_cons, h, List.filter_cons, Option.isSome_some,
        if_true, List.map_cons]
      rw [ih, hid]

theorem grouped_ids_nodup (st : ClientState)
    (hnd : st.pendingIds.Nodup)
    (hcons : ∀ p ∈ st.pendingMap, p.2.id = p.1) :
    ((envsOf (buildGroups st)).map (fun e => e.id)).Nodup := by
  obtain ⟨_, hperm⟩ := buildGroups_perm st
  have h2 : ((st.pendingIds.filterMap (mapGet st.pendingMap)).map
      (fun e => e.id)).Nodup := by
    rw [filterMap_ids st.pendingIds st.pendingMap hcons]
    exact List.Nodup.filter _ hnd
  exact List.Perm.nodup (List.Perm.map (fun e => e.id) hperm).symm h2

theorem annotate_map_snd (joinOk : String → Bool)
    (gs : List (String × List ChatEnvelope)) :
    (annotate joinOk gs).map Prod.snd = envsOf gs := by
  unfold annotate envsOf
  induction gs with
  | nil => rfl
  | cons g rest ih =>
    rw [List.flatMap_cons, List.map_append, List.map_map]
    have h1 : g.2.map (Prod.snd ∘ fun e => (joinOk g.1, e)) = g.2 := by
      have h0 : (Prod.snd ∘ fun e : ChatEnvelope =>
          (joinOk g.1, e)) = id := rfl
      rw [h0, List.map_id]
    rw [h1, ih]
    rfl

theorem annotate_fst (joinOk : String → Bool)
    (gs : List (String × List ChatEnvelope))
    (hinv : ∀ g ∈ gs, ∀ e ∈ g.2, e.room = g.1) :
    ∀ p ∈ annotate joinOk gs, p.1 = joinOk p.2.room := by
  intro p hp
  unfold annotate at hp
  rw [List.mem_flatMap] at hp
  obtain ⟨g, hg, hpg⟩ := hp
  rw [List.mem_map] at hpg
  obtain ⟨e, he, rfl⟩ := hpg
  simp only
  rw [hinv g hg e he]

theorem stepEnv_eq (acc : ClientState × List ChatEnvelope)
    (env : ChatEnvelope) :
    stepEnv acc env =
      (if (mapGet acc.1.attempts env.id).getD 0 + 1 > RETRY_MAX then
        (markPendingFailed
          { acc.1 with attempts := mapSet acc.1.attempts env.id ((mapGet acc.1.attempts env.id).getD 0 + 1) }
          env.id "retry_limit", acc.2)
      else
        ({ acc.1 with attempts := mapSet acc.1.attempts env.id ((mapGet acc.1.attempts env.id).getD 0 + 1) },
         acc.2 ++ [env])) := rfl

theorem markPendingFailed_self (st : ClientState) (oid reason : String) :
    oid ∉ (markPendingFailed st oid reason).pendingIds ∧
    mapGet (markPendingFailed st oid reason).pendingMap oid = none ∧
    mapGet (markPendingFailed st oid reason).attempts oid = none ∧
    ∀ m ∈ (markPendingFailed st oid reason).messages, m.env.id = oid →
      m.delivery = some Delivery.failed ∧ m.error = some reason := by
  unfold markPendingFailed
  refine ⟨?_, mapGet_mapDelete_self _ _, mapGet_mapDelete_self _ _, ?_⟩
  · intro hc
    rw [List.mem_filter] at hc
    simp at hc
  · intro m hm hid
    rw [List.mem_map] at hm
    obtain ⟨m0, hm0, rfl⟩ := hm
    by_cases hc : m0.env.id = oid
    · rw [if_pos hc]
      exact ⟨rfl, rfl⟩
    · rw [if_neg hc] at hid
      exact absurd hid hc

theorem markPendingFailed_frame (id oid : String) (hne : oid ≠ id)
    (reason : String) (st : ClientState) :
    mapGet ((markPendingFailed st oid reason).attempts) id =
      mapGet st.attempts id ∧
    mapGet ((markPendingFailed st oid reason).pendingMap) id =
      mapGet st.pendingMap id ∧
    ((id ∈ (markPendingFailed st oid reason).pendingIds) ↔
      id ∈ st.pendingIds) ∧
    ((∀ m ∈ st.messages, m.env.id = id →
        m.delivery = some Delivery.failed ∧
        m.error = some "retry_limit") →
      (∀ m ∈ (markPendingFailed st oid reason).messages, m.env.id = id →
        m.delivery = some Delivery.failed ∧
        m.error = some "retry_limit")) := by
  have hid : id ≠ oid := Ne.symm hne
  unfold markPendingFailed
  refine ⟨mapGet_mapDelete_ne _ _ _ hid, mapGet_mapDelete_ne _ _ _ hid,
    ?_, ?_⟩
  · constructor
    · intro hc
      exact (List.mem_filter.mp hc).1
    · intro hc
      rw [List.mem_filter]
      exact ⟨hc, by simp [hid]⟩
  · intro h m hm hmid
    rw [List.mem_map] at hm
    obtain ⟨m0, hm0, rfl⟩ := hm
    by_cases hc : m0.env.id = oid
    · rw [if_pos hc] at hmid ⊢
      simp only at hmid
      rw [hmid] at hc
      exact absurd hc.symm hne
    · rw [if_neg hc] at hmid ⊢
      exact h m0 hm0 hmid

theorem annStep_frame (id : String) (p : Bool × ChatEnvelope)
    (hne : p.2.id ≠ id) (acc : ClientState × List ChatEnvelope) :
    mapGet ((annStep acc p).1.attempts) id = mapGet acc.1.attempts id ∧
    mapGet ((annStep acc p).1.pendingMap) id =
      mapGet acc.1.pendingMap id ∧
    ((id ∈ (annStep acc p).1.pendingIds) ↔ id ∈ acc.1.pendingIds) ∧
    ((∀ m ∈ acc.1.messages, m.env.id = id →
        m.delivery = some Delivery.failed ∧
        m.error = some "retry_limit") →
      (∀ m ∈ (annStep acc p).1.messages, m.env.id = id →
        m.delivery = some Delivery.failed ∧
        m.error = some "retry_limit")) ∧
    (∀ e ∈ (annStep acc p).2, e ∈ acc.2 ∨ e.id ≠ id) ∧
    (∀ e ∈ acc.2, e ∈ (annStep acc p).2) := by
  have hid : id ≠ p.2.id := Ne.symm hne
  unfold annStep
  by_cases hb : p.1 = true
  · rw [if_pos hb, stepEnv_eq]
    by_cases hn : (mapGet acc.1.attempts p.2.id).getD 0 + 1 > RETRY_MAX
    · rw [if_pos hn]
      obtain ⟨f1, f2, f3, f4⟩ :=
        markPendingFailed_frame id p.2.id hne "retry_limit"
          { acc.1 with attempts := mapSet acc.1.attempts p.2.id ((mapGet acc.1.attempts p.2.id).getD 0 + 1) }
      refine ⟨?_, ?_, ?_, ?_, ?_, ?_⟩
      · rw [f1]
        exact mapGet_mapSet_ne acc.1.attempts p.2.id id _ hid
      · exact f2
      · exact f3
      · exact f4
      · intro e he
        exact Or.inl he
      · intro e he
        exact he
    · rw [if_neg hn]
      refine ⟨mapGet_mapSet_ne acc.1.attempts p.2.id id _ hid, rfl,
        Iff.rfl, fun h => h, ?_, ?_⟩
      · intro e he
        rcases List.mem_append.mp he with h1 | h2
        · exact Or.inl h1
        · rw [List.mem_singleton] at h2
          subst h2
          exact Or.inr hne
      · intro e he
        exact List.mem_append_left _ he
  · rw [if_neg hb]
    obtain ⟨f1, f2, f3, f4⟩ :=
      markPendingFailed_frame id p.2.id hne "join_denied" acc.1
    exact ⟨f1, f2, f3, f4, fun e he => Or.inl he, fun e he => he⟩

theorem annStep_fold_frame (id : String) :
    ∀ L : List (Bool × ChatEnvelope),
      (∀ p ∈ L, p.2.id ≠ id) →
      ∀ acc : ClientState × List ChatEnvelope,
      mapGet ((L.foldl annStep acc).1.attempts) id =
        mapGet acc.1.attempts id ∧
      mapGet ((L.foldl annStep acc).1.pendingMap) id =
        mapGet acc.1.pendingMap id ∧
      ((id ∈ (L.foldl annStep acc).1.pendingIds) ↔
        id ∈ acc.1.pendingIds) ∧
      ((∀ m ∈ acc.1.messages, m.env.id = id →
          m.delivery = some Delivery.failed ∧
          m.error = some "retry_limit") →
        (∀ m ∈ (L.foldl annStep acc).1.messages, m.env.id = id →
          m.delivery = some Delivery.failed ∧
          m.error = some "retry_limit")) ∧
      (∀ e ∈ (L.foldl annStep acc).2, e ∈ acc.2 ∨ e.id ≠ id) ∧
      (∀ e ∈ acc.2, e ∈ (L.foldl annStep acc).2) := by
  intro L
  induction L with
  | nil =>
    intro _ acc
    exact ⟨rfl, rfl, Iff.rfl, fun h => h, fun e he => Or.inl he,
      fun e he => he⟩
  | cons p rest ih =>
    intro hL acc
    have hne : p.2.id ≠ id := hL p (List.mem_cons_self p rest)
    have hrest : ∀ q ∈ rest, q.2.id ≠ id :=
      fun q hq => hL q (List.mem_cons_of_mem p hq)
    rw [List.foldl_cons]
    obtain ⟨s1, s2, s3, s4, s5, s6⟩ := annStep_frame id p hne acc
    obtain ⟨g1, g2, g3, g4, g5, g6⟩ := ih hrest (annStep acc p)
    refine ⟨?_, ?_, ?_, ?_, ?_, ?_⟩
    · rw [g1, s1]
    · rw [g2, s2]
    · exact Iff.trans g3 s3
    · intro h
      exact g4 (s4 h)
    · intro e he
      rcases g5 e he with h1 | h2
      · exact s5 e h1
      · exact Or.inr h2
    · intro e he
      exact g6 e (s6 e he)

theorem annStep_fold_emitted_sub (L : List (Bool × ChatEnvelope)) :
    ∀ acc : ClientState × List ChatEnvelope,
      ∀ e ∈ (L.foldl annStep acc).2, e ∈ acc.2 ∨ e ∈ L.map Prod.snd := by
  induction L with
  | nil =>
    intro acc e he
    exact Or.inl he
  | cons p rest ih =>
    intro acc e he
    rw [List.foldl_cons] at he
    rcases ih (annStep acc p) e he with h1 | h2
    · have hstep : e ∈ acc.2 ∨ e = p.2 := by
        revert h1
        unfold annStep
        by_cases hb : p.1 = true
        · rw [if_pos hb, stepEnv_eq]
          by_cases hn :
              (mapGet acc.1.attempts p.2.id).getD 0 + 1 > RETRY_MAX
          · rw [if_pos hn]
            intro h1
            exact Or.inl h1
          · rw [if_neg hn]
            intro h1
            rcases List.mem_append.mp h1 with ha | hb2
            · exact Or.inl ha
            · rw [List.mem_singleton] at hb2
              exact Or.inr hb2
        · rw [if_neg hb]
          intro h1
          exact Or.inl h1
      rcases hstep with ha | hb2
      · exact Or.inl ha
      · subst hb2
        exact Or.inr (List.mem_map.mpr ⟨p, List.mem_cons_self p rest, rfl⟩)
    · exact Or.inr (List.mem_map.mpr
        (by
          rcases List.mem_map.mp h2 with ⟨q, hq, rfl⟩
          exact ⟨q, List.mem_cons_of_mem p hq, rfl⟩))

/-- C4 counterexample: a still-pending envelope whose room rejoin is
denied is not re-submitted and its attempt count is not incremented,
contradicting the claim for every still-pending envelope; instead the
client marks it failed with join_denied and drops it from the pending
bookkeeping. -/
theorem retry_ceiling_cex :
    envFamily.id ∈ stFresh.pendingIds ∧
    mapGet stFresh.pendingMap envFamily.id = some envFamily ∧
    (mapGet stFresh.attempts envFamily.id).getD 0 + 1 ≤ RETRY_MAX ∧
    (flushPending (fun _ => false) stFresh).2 = [] ∧
    envFamily.id ∉ (flushPending (fun _ => false) stFresh).1.pendingIds ∧
    mapGet (flushPending (fun _ => false) stFresh).1.attempts
      envFamily.id = none ∧
    (∀ m ∈ (flushPending (fun _ => false) stFresh).1.messages,
      m.delivery = some Delivery.failed ∧
      m.error = some "join_denied") := by
  decide

/-- C4 amended: on reconnection flushPending, a pending envelope WHOSE
ROOM REJOIN SUCCEEDED has its attempt count incremented; if the new
count exceeds RETRY_MAX (5) the envelope is removed from all pending
bookkeeping, its message row is marked failed with retry_limit, it is
not emitted, and no later flush of a state lacking the id can emit it;
otherwise it is re-emitted to the relay with the incremented count
recorded. -/
theorem retry_ceiling (joinOk : String → Bool) (st : ClientState)
    (env : ChatEnvelope)
    (hnd : st.pendingIds.Nodup)
    (hcons : ∀ p ∈ st.pendingMap, p.2.id = p.1)
    (hid : env.id ∈ st.pendingIds)
    (henv : mapGet st.pendingMap env.id = some env)
    (hjoin : joinOk env.room = true) :
    ((mapGet st.attempts env.id).getD 0 + 1 > RETRY_MAX →
      env.id ∉ (flushPending joinOk st).1.pendingIds ∧
      mapGet (flushPending joinOk st).1.pendingMap env.id = none ∧
      mapGet (flushPending joinOk st).1.attempts env.id = none ∧
      (∀ m ∈ (flushPending joinOk st).1.messages, m.env.id = env.id →
        m.delivery = some Delivery.failed ∧
        m.error = some "retry_limit") ∧
      (∀ e ∈ (flushPending joinOk st).2, e.id ≠ env.id)) ∧
    ((mapGet st.attempts env.id).getD 0 + 1 ≤ RETRY_MAX →
      env ∈ (flushPending joinOk st).2 ∧
      mapGet (flushPending joinOk st).1.attempts env.id =
        some ((mapGet st.attempts env.id).getD 0 + 1)) ∧
    (∀ joinOk2 : String → Bool, ∀ st2 : ClientState,
      (∀ p ∈ st2.pendingMap, p.2.id = p.1) →
      mapGet st2.pendingMap env.id = none →
      ∀ e ∈ (flushPending joinOk2 st2).2, e.id ≠ env.id) := by
  have hflush := flushPending_eq_annotated joinOk st
  obtain ⟨hgnd, hperm⟩ := buildGroups_perm st
  have henvmem : env ∈ envsOf (buildGroups st) :=
    (List.Perm.mem_iff hperm).mpr
      (List.mem_filterMap.mpr ⟨env.id, hid, henv⟩)
  have hsnd : env ∈ (annotate joinOk (buildGroups st)).map Prod.snd := by
    rw [annotate_map_snd]
    exact henvmem
  obtain ⟨p, hpL, hp2⟩ := List.mem_map.mp hsnd
  have hp1 : p.1 = true := by
    have h := annotate_fst joinOk (buildGroups st)
      (buildGroups_room_inv st) p hpL
    rw [h, hp2, hjoin]
  have hptrue : p = (true, env) := by
    obtain ⟨pb, pe⟩ := p
    simp only at hp1 hp2
    rw [hp1, hp2]
  rw [hptrue] at hpL
  obtain ⟨L1, L2, hsplit⟩ := List.append_of_mem hpL
  have hnodup_ids :
      ((annotate joinOk (buildGroups st)).map (fun q => q.2.id)).Nodup := by
    have h1 : (annotate joinOk (buildGroups st)).map (fun q => q.2.id) =
        ((annotate joinOk (buildGroups st)).map Prod.snd).map
          (fun e => e.id) := by
      rw [List.map_map]
      rfl
    rw [h1, annotate_map_snd]
    exact grouped_ids_nodup st hnd hcons
  rw [hsplit] at hnodup_ids
  have hmid : env.id ∉ (L1.map (fun q => q.2.id)) ∧
      env.id ∉ (L2.map (fun q => q.2.id)) := by
    rw [List.map_append, List.map_cons] at hnodup_ids
    have h0 := List.nodup_middle.mp hnodup_ids
    have h2 := (List.nodup_cons.mp h0).1
    constructor
    · intro hc
      exact h2 (List.mem_append_left _ hc)
    · intro hc
      exact h2 (List.mem_append_right _ hc)
  have hL1 : ∀ q ∈ L1, q.2.id ≠ env.id := by
    intro q hq hc
    exact hmid.1 (List.mem_map.mpr ⟨q, hq, hc⟩)
  have hL2 : ∀ q ∈ L2, q.2.id ≠ env.id := by
    intro q hq hc
    exact hmid.2 (List.mem_map.mpr ⟨q, hq, hc⟩)
  have hfold : flushPending joinOk st =
      L2.foldl annStep
        (annStep (L1.foldl annStep (st, [])) (true, env)) := by
    rw [hflush, hsplit, List.foldl_append, List.foldl_cons]
  obtain ⟨a1, a2, a3, a4, a5, a6⟩ :=
    annStep_fold_frame env.id L1 hL1 (st, [])
  have a1' : mapGet (L1.foldl annStep
      (st, ([] : List ChatEnvelope))).1.attempts env.id =
      mapGet st.attempts env.id := a1
  have hstepA : annStep (L1.foldl annStep (st, [])) (true, env) =
      stepEnv (L1.foldl annStep (st, [])) env := rfl
  refine ⟨?_, ?_, ?_⟩
  · intro hover
    have hover' : (mapGet (L1.foldl annStep
        (st, ([] : List ChatEnvelope))).1.attempts env.id).getD 0 + 1 >
        RETRY_MAX := by
      rw [a1]
      exact hover
    have hstep : annStep (L1.foldl annStep (st, [])) (true, env) =
        (markPendingFailed
          { (L1.foldl annStep (st, ([] : List ChatEnvelope))).1 with attempts := mapSet (L1.foldl annStep (st, [])).1.attempts env.id ((mapGet (L1.foldl annStep (st, [])).1.attempts env.id).getD 0 + 1) }
          env.id "retry_limit",
         (L1.foldl annStep (st, ([] : List ChatEnvelope))).2) := by
      rw [hstepA, stepEnv_eq, if_pos hover']
    obtain ⟨m1, m2, m3, m4⟩ := markPendingFailed_self
      { (L1.foldl annStep (st, ([] : List ChatEnvelope))).1 with attempts := mapSet (L1.foldl annStep (st, [])).1.attempts env.id ((mapGet (L1.foldl annStep (st, [])).1.attempts env.id).getD 0 + 1) }
      env.id "retry_limit"
    obtain ⟨b1, b2, b3, b4, b5, b6⟩ :=
      annStep_fold_frame env.id L2 hL2
        (annStep (L1.foldl annStep (st, [])) (true, env))
    refine ⟨?_, ?_, ?_, ?_, ?_⟩
    · rw [hfold]
      intro hc
      have hin := b3.mp hc
      rw [hstep] at hin
      exact m1 hin
    · rw [hfold, b2, hstep]
      exact m2
    · rw [hfold, b1, hstep]
      exact m3
    · rw [hfold]
      apply b4
      rw [hstep]
      exact m4
    · rw [hfold]
      intro e he
      rcases b5 e he with h1 | h2
      · rw [hstep] at h1
        rcases a5 e h1 with ha | hb
        · simp at ha
        · exact hb
      · exact h2
  · intro hunder
    have hunder' : ¬((mapGet (L1.foldl annStep
        (st, ([] : List ChatEnvelope))).1.attempts env.id).getD 0 + 1 >
        RETRY_MAX) := by
      rw [a1']
      omega
    have hstep : annStep (L1.foldl annStep (st, [])) (true, env) =
        ({ (L1.foldl annStep (st, ([] : List ChatEnvelope))).1 with attempts := mapSet (L1.foldl annStep (st, [])).1.attempts env.id ((mapGet (L1.foldl annStep (st, [])).1.attempts env.id).getD 0 + 1) },
         (L1.foldl annStep (st, ([] : List ChatEnvelope))).2 ++ [env]) := by
      rw [hstepA, stepEnv_eq, if_neg hunder']
    obtain ⟨b1, b2, b3, b4, b5, b6⟩ :=
      annStep_fold_frame env.id L2 hL2
        (annStep (L1.foldl annStep (st, [])) (true, env))
    constructor
    · rw [hfold]
      apply b6
      rw [hstep]
      exact List.mem_append_right _ (List.mem_singleton.mpr rfl)
    · rw [hfold, b1, hstep]
      have hms : mapGet (mapSet (L1.foldl annStep
          (st, ([] : List ChatEnvelope))).1.attempts env.id
          ((mapGet (L1.foldl annStep (st, [])).1.attempts env.id).getD 0
            + 1)) env.id =
          some ((mapGet (L1.foldl annStep
            (st, ([] : List ChatEnvelope))).1.attempts env.id).getD 0
            + 1) := mapGet_mapSet_self _ _ _
      show mapGet (mapSet (L1.foldl annStep
          (st, ([] : List ChatEnvelope))).1.attempts env.id
          ((mapGet (L1.foldl annStep (st, [])).1.attempts env.id).getD 0
            + 1)) env.id =
          some ((mapGet st.attempts env.id).getD 0 + 1)
      rw [hms, a1']
  · intro joinOk2 st2 hcons2 hnone e he
    rw [flushPending_eq_annotated] at he
    rcases annStep_fold_emitted_sub (annotate joinOk2 (buildGroups st2))
      (st2, []) e he with h1 | h2
    · simp at h1
    · rw [annotate_map_snd] at h2
      obtain ⟨_, hperm2⟩ := buildGroups_perm st2
      have h3 := (List.Perm.mem_iff hperm2).mp h2
      obtain ⟨k, hk, hkeq⟩ := List.mem_filterMap.mp h3
      obtain ⟨pp, hpp, hpp1, hpp2⟩ := mapGet_eq_some st2.pendingMap k e hkeq
      have heid : e.id = k := by
        rw [← hpp2, hcons2 pp hpp, hpp1]
      intro hc
      have hk2 : k = env.id := heid.symm.trans hc
      rw [hk2, hnone] at hkeq
      exact Option.noConfusion hkeq

/-- Witness for C4: the exhausted state (five prior attempts) fails
with retry_limit and is not emitted; the fresh state (zero prior
attempts) is re-emitted with attempt count one. -/
theorem retry_ceiling_witness :
    ((mapGet stExhausted.attempts envFamily.id).getD 0 + 1 > RETRY_MAX) ∧
    (envFamily.id ∉
        (flushPending (fun _ => true) stExhausted).1.pendingIds ∧
      mapGet (flushPending (fun _ => true) stExhausted).1.pendingMap
        envFamily.id = none ∧
      mapGet (flushPending (fun _ => true) stExhausted).1.attempts
        envFamily.id = none ∧
      (∀ m ∈ (flushPending (fun _ => true) stExhausted).1.messages,
        m.env.id = envFamily.id →
        m.delivery = some Delivery.failed ∧
        m.error = some "retry_limit") ∧
      (∀ e ∈ (flushPending (fun _ => true) stExhausted).2,
        e.id ≠ envFamily.id)) ∧
    ((mapGet stFresh.attempts envFamily.id).getD 0 + 1 ≤ RETRY_MAX) ∧
    (envFamily ∈ (flushPending (fun _ => true) stFresh).2 ∧
      mapGet (flushPending (fun _ => true) stFresh).1.attempts
        envFamily.id =
        some ((mapGet stFresh.attempts envFamily.id).getD 0 + 1)) :=
  ⟨by decide,
   (retry_ceiling (fun _ => true) stExhausted envFamily (by decide)
      (by decide) (by decide) (by decide) rfl).1 (by decide),
   by decide,
   (retry_ceiling (fun _ => true) stFresh envFamily (by decide)
      (by decide) (by decide) (by decide) rfl).2.1 (by decide)⟩
